import Mathlib

/-!
Verification of the model/manufacturer text-extraction and matching engine of
the Deal_IQ data-cleaning pipeline.

The definitions below are a shallow embedding of the Python sources
`src/DataCleaning/model_extract.py` and `src/DataCleaning/model_cleaning.py`:
* pandas cells are modelled as `Option String` (`none` = NaN/null); the year,
  which Python stores as `int`, is modelled by its decimal-digit string (the
  extracted year text `19xx`/`20xx` has no leading zero, so `str(int(s)) = s`);
* strings are processed as `List Char`; Python's ASCII-relevant `str.lower`,
  `str.strip`, `str.split` are modelled character by character;
* the few fixed regular expressions of the source are modelled by a small
  backtracking matcher (`matchk`/`searchG`) over an explicit pattern syntax
  with character classes, alternation (tried left to right), greedy
  char-class star and greedy optional, and `\b` word boundaries, exactly the
  constructs those patterns use;
* `DataFrame`s are lists of row structures; column assignment under a mask
  becomes a per-row update.
-/

namespace DealIQ

/-- Python `\s` whitespace characters (ASCII range, as used by the data). -/
def isPySpace (c : Char) : Bool :=
  c == ' ' || c == '\t' || c == '\n' || c == '\r' || c == '\x0b' || c == '\x0c'

/-- Characters collapsed to a single space by `_normalize_text` (`[\s\-_]+`). -/
def isSepChar (c : Char) : Bool :=
  isPySpace c || c == '-' || c == '_'

/-- `[a-z0-9]`. -/
def isLowerAlphaNum (c : Char) : Bool :=
  ('a' ≤ c && c ≤ 'z') || ('0' ≤ c && c ≤ '9')

/-- Characters kept by `re.sub(r'[^a-z0-9\s]', '', text)`. -/
def keepChar (c : Char) : Bool :=
  isLowerAlphaNum c || isPySpace c

/-- ASCII lower-casing, as Python `str.lower` acts on the ASCII range. -/
def lowChar (c : Char) : Char :=
  if 'A' ≤ c && c ≤ 'Z' then Char.ofNat (c.toNat + 32) else c

/-- `str.lower` on a character list. -/
def pyLower (l : List Char) : List Char := l.map lowChar

/-- `str.strip()`: drop leading and trailing whitespace. -/
def pyStrip (l : List Char) : List Char :=
  ((l.dropWhile isPySpace).reverse.dropWhile isPySpace).reverse

/-- Replace every maximal run of whitespace/hyphen/underscore by one space
(`re.sub(r'[\s\-_]+', ' ', text)`).  The flag records whether the previous
character belonged to such a run. -/
def collapseSeps : Bool → List Char → List Char
  | _, [] => []
  | prevSep, c :: rest =>
    if isSepChar c then
      if prevSep then collapseSeps true rest
      else ' ' :: collapseSeps true rest
    else c :: collapseSeps false rest

/-- Helper of `splitWs`: `acc` holds the current word reversed. -/
def splitWsAux : List Char → List Char → List (List Char)
  | [], acc => if acc.isEmpty then [] else [acc.reverse]
  | c :: rest, acc =>
    if isPySpace c then
      if acc.isEmpty then splitWsAux rest []
      else acc.reverse :: splitWsAux rest []
    else splitWsAux rest (c :: acc)

/-- Python `str.split()` (split on whitespace runs, no empty words). -/
def splitWs (l : List Char) : List (List Char) := splitWsAux l []

/-- Python `' '.join(words)`. -/
def joinWords : List (List Char) → List Char
  | [] => []
  | [w] => w
  | w :: ws => w ++ ' ' :: joinWords ws

/-- The body of `_normalize_text` on the character list of a string:
lowercase, collapse separator runs to one space, drop characters outside
`[a-z0-9\s]`, then `' '.join(text.split())`. -/
def normList (l : List Char) : List Char :=
  joinWords (splitWs ((collapseSeps false (pyLower l)).filter keepChar))

/-- `_normalize_text` from `model_cleaning.py`; `none` models NaN input. -/
def _normalize_text : Option String → String
  | none => ""
  | some s => String.mk (normList s.data)

/-! ### A small backtracking regex matcher

The source uses a handful of fixed `re.search` patterns built from literal
characters, character classes, alternation, `.?`, `\s*`, `\d+` and `\b`.
`RE` is exactly that fragment; `matchk` is a continuation-passing matcher
whose backtracking order (alternatives left to right, stars and options
greedy) matches Python's `re`. -/

inductive RE where
  /-- matches the empty string -/
  | eps : RE
  /-- one character of the class `p` -/
  | cls (p : Char → Bool) : RE
  /-- concatenation -/
  | seq (a b : RE) : RE
  /-- alternation, `a` preferred -/
  | alt (a b : RE) : RE
  /-- greedy `p*` over a character class -/
  | star (p : Char → Bool) : RE
  /-- `\b` word boundary (zero width) -/
  | bnd : RE

/-- Python `\w` (ASCII part, which is all the data uses). -/
def isWordChar (c : Char) : Bool :=
  ('a' ≤ c && c ≤ 'z') || ('A' ≤ c && c ≤ 'Z') || ('0' ≤ c && c ≤ '9') || c == '_'

/-- `\b` holds between the previous character (`none` at the string start)
and the rest of the input. -/
def atBoundary (prev : Option Char) (l : List Char) : Bool :=
  (match prev with | none => false | some c => isWordChar c)
    != (match l with | [] => false | d :: _ => isWordChar d)

/-- Greedy matching of `p*` in continuation-passing style: consume as many
class characters as possible, backtracking one at a time if the
continuation fails.  The returned number counts all characters consumed
here and by the continuation. -/
def starK (p : Char → Bool) (prev : Option Char) (l : List Char)
    (k : Option Char → List Char → Option Nat) : Option Nat :=
  match l with
  | [] => k prev []
  | d :: rest =>
    if p d then
      match starK p (some d) rest k with
      | some n => some (n + 1)
      | none => k prev (d :: rest)
    else k prev (d :: rest)

/-- Backtracking matcher.  `matchk r prev l k` tries to match `r` at the
start of `l` (`prev` is the character just before `l`, for `\b`), then runs
the continuation `k` on what is left; the result is the total number of
characters consumed by `r` and `k` together, for the first success in
backtracking order, or `none`. -/
def matchk : RE → Option Char → List Char → (Option Char → List Char → Option Nat) → Option Nat
  | .eps, prev, l, k => k prev l
  | .cls p, _, l, k =>
    match l with
    | [] => none
    | d :: rest => if p d then (k (some d) rest).map (· + 1) else none
  | .seq a b, prev, l, k => matchk a prev l (fun pr l' => matchk b pr l' k)
  | .alt a b, prev, l, k =>
    match matchk a prev l k with
    | some n => some n
    | none => matchk b prev l k
  | .star p, prev, l, k => starK p prev l k
  | .bnd, prev, l, k => if atBoundary prev l then k prev l else none

/-- One attempt of `re.search` at a fixed position: optional leading `\b`
(`needB`), then the capturing group `grp`, then the rest `post` of the
pattern.  Succeeds with the number of characters the group consumed (the
continuation contributes `0`, so backtracking across the group/post border
still works). -/
def tryHere (needB : Bool) (grp post : RE) (prev : Option Char) (l : List Char) : Option Nat :=
  if !needB || atBoundary prev l then
    matchk grp prev l (fun pr2 l2 =>
      if (matchk post pr2 l2 (fun _ _ => some 0)).isSome then some 0 else none)
  else none

/-- `re.search` for a pattern of the shape `[\b] (grp) post`: scan start
positions left to right and return the captured group of the first match. -/
def searchG (needB : Bool) (grp post : RE) (prev : Option Char) : List Char → Option (List Char)
  | [] =>
    match tryHere needB grp post prev [] with
    | some n => some (List.take n [])
    | none => none
  | d :: rest =>
    match tryHere needB grp post prev (d :: rest) with
    | some n => some (List.take n (d :: rest))
    | none => searchG needB grp post (some d) rest

/-- Case-insensitive single character (`re.IGNORECASE` literal). -/
def ciCls (c : Char) : RE := RE.cls (fun d => lowChar d == lowChar c)

/-- Case-sensitive single character. -/
def exCls (c : Char) : RE := RE.cls (fun d => d == c)

/-- Case-insensitive literal string. -/
def ciLit (s : List Char) : RE := s.foldr (fun c r => RE.seq (ciCls c) r) RE.eps

/-- Case-sensitive literal string. -/
def exLit (s : List Char) : RE := s.foldr (fun c r => RE.seq (exCls c) r) RE.eps

/-- `.?` — greedy optional any-character-but-newline. -/
def optAny : RE := RE.alt (RE.cls (fun d => !(d == '\n'))) RE.eps

/-- `\d`. -/
def digCls : RE := RE.cls Char.isDigit

/-- Left-preferential alternation chain `r | s₁ | s₂ | …`. -/
def altChain : RE → List RE → RE
  | r, [] => r
  | r, s :: rest => RE.alt r (altChain s rest)

/-! ### `model_extract.py`: `extract_car_data` and its inner `parse_string` -/

/-- `drive_mapping` from `extract_car_data` (a `dict.get` with default). -/
def drive_mapping (s : String) : String :=
  if s = "4d" then "4wd" else if s = "4wd" then "4wd"
  else if s = "awd" then "4wd" else if s = "4x4" then "4wd"
  else if s = "2d" then "rwd" else if s = "rwd" then "rwd"
  else if s = "rear" then "rwd"
  else if s = "fwd" then "fwd" else if s = "front" then "fwd"
  else s

/-- `type_mapping` from `extract_car_data` (a `dict.get` with default). -/
def type_mapping (s : String) : String :=
  if s = "sedan" then "sedan" else if s = "coupe" then "coupe"
  else if s = "suv" then "SUV" else if s = "hatchback" then "hatchback"
  else if s = "wagon" then "wagon" else if s = "convertible" then "convertible"
  else if s = "pickup" then "pickup" else if s = "truck" then "truck"
  else if s = "van" then "van" else if s = "mini-van" then "mini-van"
  else if s = "minivan" then "mini-van" else if s = "offroad" then "offroad"
  else if s = "bus" then "bus"
  else s

/-- The `manufacturers` vocabulary of `extract_car_data`, in source order. -/
def manufacturers : List String :=
  ["gmc", "chevrolet", "toyota", "ford", "jeep", "nissan", "ram",
   "mazda", "cadillac", "honda", "dodge", "lexus", "jaguar", "buick",
   "chrysler", "volvo", "audi", "infiniti", "lincoln", "alfa-romeo",
   "subaru", "acura", "hyundai", "mercedes-benz", "bmw",
   "mitsubishi", "volkswagen", "porsche", "kia", "rover", "ferrari",
   "mini", "pontiac", "fiat", "tesla", "saturn", "mercury",
   "harley-davidson", "datsun", "aston-martin", "land rover",
   "morgan", "genesis", "Freightliner", "International", "Scion", "smart",
   "Isuzu", "Maserati"]

/-- `\b(19|20)\d{2}\b`, capture = the whole four digits. -/
def yearGrp : RE :=
  RE.seq (RE.alt (exLit "19".data) (exLit "20".data)) (RE.seq digCls digCls)

/-- `\d+`. -/
def digPlus : RE := RE.seq digCls (RE.star Char.isDigit)

/-- `(?:cyl|cylinder|cylinders?)` (alternatives in source order). -/
def cylWords : RE :=
  RE.alt (ciLit "cyl".data)
    (RE.alt (ciLit "cylinder".data)
      (RE.seq (ciLit "cylinder".data) (RE.alt (ciCls 's') RE.eps)))

/-- After the group of `(\d+)\s*(?:cyl|cylinder|cylinders?)\b`. -/
def cylPost1 : RE := RE.seq (RE.star isPySpace) (RE.seq cylWords RE.bnd)

/-- After the group of `\b(\d+)(?:\s*|-)?(?:cyl|cylinder|cylinders?)\b`. -/
def cylPost2 : RE :=
  RE.seq (RE.alt (RE.star isPySpace) (RE.alt (exCls '-') RE.eps))
    (RE.seq cylWords RE.bnd)

/-- `all.?wheel.?drive`. -/
def allWheelDrive : RE :=
  RE.seq (ciLit "all".data)
    (RE.seq optAny (RE.seq (ciLit "wheel".data) (RE.seq optAny (ciLit "drive".data))))

/-- `rear.?wheel.?drive`. -/
def rearWheelDrive : RE :=
  RE.seq (ciLit "rear".data)
    (RE.seq optAny (RE.seq (ciLit "wheel".data) (RE.seq optAny (ciLit "drive".data))))

/-- `front.?wheel.?drive`. -/
def frontWheelDrive : RE :=
  RE.seq (ciLit "front".data)
    (RE.seq optAny (RE.seq (ciLit "wheel".data) (RE.seq optAny (ciLit "drive".data))))

/-- Group of drive pattern 1, `\b(4d|4wd|awd|all.?wheel.?drive|4x4)\b`. -/
def driveG1 : RE :=
  altChain (ciLit "4d".data)
    [ciLit "4wd".data, ciLit "awd".data, allWheelDrive, ciLit "4x4".data]

/-- Group of drive pattern 2, `\b(2d|rwd|rear.?wheel.?drive)\b`. -/
def driveG2 : RE :=
  altChain (ciLit "2d".data) [ciLit "rwd".data, rearWheelDrive]

/-- Group of drive pattern 3, `\b(fwd|front.?wheel.?drive)\b`. -/
def driveG3 : RE :=
  altChain (ciLit "fwd".data) [frontWheelDrive]

/-- `mini.?van`. -/
def miniQvan : RE := RE.seq (ciLit "mini".data) (RE.seq optAny (ciLit "van".data))

/-- Group of the body-type pattern
`\b(sedan|coupe|suv|hatchback|wagon|convertible|pickup|truck|van|mini.?van|minivan|offroad|bus)\b`. -/
def typeGrp : RE :=
  altChain (ciLit "sedan".data)
    [ciLit "coupe".data, ciLit "suv".data, ciLit "hatchback".data,
     ciLit "wagon".data, ciLit "convertible".data, ciLit "pickup".data,
     ciLit "truck".data, ciLit "van".data, miniQvan, ciLit "minivan".data,
     ciLit "offroad".data, ciLit "bus".data]

/-- `.replace('-', '')`. -/
def remHy (l : List Char) : List Char := l.filter (fun c => !(c == '-'))

/-- `.replace('-', '').replace(' ', '')`. -/
def remHySp (l : List Char) : List Char := l.filter (fun c => !(c == '-') && !(c == ' '))

/-- Year extraction: first match of `\b(19|20)\d{2}\b`.  Python stores
`int(match.group())`; since the matched digits never start with `0`,
`str(int(s)) = s` and the cell is modelled by the digit string itself. -/
def extractYear (ts : List Char) : Option String :=
  (searchG true yearGrp RE.bnd none ts).map String.mk

/-- Cylinder extraction: try the two source patterns in order, result
`f"{digits} cylinders"`. -/
def extractCyl (ts : List Char) : Option String :=
  match searchG false digPlus cylPost1 none ts with
  | some g => some (String.mk g ++ " cylinders")
  | none =>
    match searchG true digPlus cylPost2 none ts with
    | some g => some (String.mk g ++ " cylinders")
    | none => none

/-- Post-processing of a matched drive token:
`.lower().replace('-', '').replace(' ', '')` then `drive_mapping.get`. -/
def drivePost (g : List Char) : String := drive_mapping (String.mk (remHySp (pyLower g)))

/-- Drive extraction: the three `\b(...)\b` patterns tried in source
order, first match wins. -/
def extractDrive (ts : List Char) : Option String :=
  match searchG true driveG1 RE.bnd none ts with
  | some g => some (drivePost g)
  | none =>
    match searchG true driveG2 RE.bnd none ts with
    | some g => some (drivePost g)
    | none =>
      match searchG true driveG3 RE.bnd none ts with
      | some g => some (drivePost g)
      | none => none

/-- Post-processing of a matched body-type token:
`.lower().replace('-', '')` then `type_mapping.get`. -/
def typePost (g : List Char) : String := type_mapping (String.mk (remHy (pyLower g)))

/-- Body-type extraction. -/
def extractType (ts : List Char) : Option String :=
  (searchG true typeGrp RE.bnd none ts).map typePost

/-- `manufacturer` entries containing a space or hyphen. -/
def multiWordMfrs : List String :=
  manufacturers.filter (fun m => m.data.any (fun c => c == ' ' || c == '-'))

/-- Stable insertion into a length-descending list (equal lengths keep
earlier elements first, like Python's stable `sorted(..., reverse=True)`). -/
def insertLenDesc (len : α → Nat) (x : α) : List α → List α
  | [] => [x]
  | y :: ys => if len x < len y then y :: insertLenDesc len x ys else x :: y :: ys

/-- Stable sort by length, longest first (`sorted(..., key=len, reverse=True)`). -/
def sortLenDesc (len : α → Nat) : List α → List α
  | [] => []
  | x :: xs => insertLenDesc len x (sortLenDesc len xs)

/-- Regex for one multi-word manufacturer: each `-` of the name was replaced
by the class `[-\s]` in the source, other characters are (case-insensitive)
literals. -/
def mfrRE (m : String) : RE :=
  (m.data.map (fun c =>
    if c = '-' then RE.cls (fun d => d == '-' || isPySpace d) else ciCls c)).foldr RE.seq RE.eps

/-- Multi-word manufacturer scan, longest name first, first whole-word
regex hit wins (`\b<name>\b` on the lower-cased text). -/
def findMultiMfr (tl : List Char) : Option String :=
  (sortLenDesc String.length multiWordMfrs).find?
    (fun m => (searchG true (mfrRE m) RE.bnd none tl).isSome)

/-- `m` has neither space nor hyphen. -/
def isSingleWordM (m : String) : Bool :=
  !(m.data.any (fun c => c == ' ' || c == '-'))

/-- Single-word manufacturer scan: for each word of the text (in order),
find the first manufacturer in list order whose lower-cased name equals
`word.lower().strip()`. -/
def findSingleMfr : List (List Char) → Option String
  | [] => none
  | w :: ws =>
    match manufacturers.find?
        (fun m => isSingleWordM m && (pyStrip (pyLower w) == pyLower m.data)) with
    | some m => some m
    | none => findSingleMfr ws

/-- The partial attribute record produced by `parse_string`. -/
structure Extracted where
  manufacturer : Option String
  type : Option String
  drive : Option String
  cylinders : Option String
  year : Option String
deriving DecidableEq

/-- `parse_string` from `extract_car_data`: empty/NaN text yields the
all-`None` record, otherwise the text is stripped and the five ordered
extractions run on it (manufacturer: multi-word scan first, then the
single-word scan on `text.split()`). -/
def parse_string (t : String) : Extracted :=
  if t = "" then ⟨none, none, none, none, none⟩
  else
    let ts := pyStrip t.data
    { year := extractYear ts
      cylinders := extractCyl ts
      drive := extractDrive ts
      type := extractType ts
      manufacturer :=
        match findMultiMfr (pyLower ts) with
        | some m => some m
        | none => findSingleMfr (splitWs ts) }

/-- One listing row; cells are `Option String` (`none` = NaN). -/
@[ext]
structure CarRow where
  model : Option String
  description : Option String
  manufacturer : Option String
  type : Option String
  drive : Option String
  cylinders : Option String
  year : Option String
deriving DecidableEq

/-- The fill-guard of `extract_car_data`:
`pd.isna(v) or str(v).strip() == '' or str(v).lower() == 'nan'`. -/
def cellEmpty : Option String → Bool
  | none => true
  | some s => (pyStrip s.data).isEmpty || (pyLower s.data == "nan".data)

/-- Fill a cell only when the extracted value exists and the current cell
is empty in the sense of `cellEmpty`. -/
def fillField (cur v : Option String) : Option String :=
  match v with
  | none => cur
  | some s => if cellEmpty cur then some s else cur

/-- Merge one extracted record into a row, field by field, fill-only. -/
def fillRow (r : CarRow) (e : Extracted) : CarRow :=
  { r with
    manufacturer := fillField r.manufacturer e.manufacturer
    type := fillField r.type e.type
    drive := fillField r.drive e.drive
    cylinders := fillField r.cylinders e.cylinders
    year := fillField r.year e.year }

/-- Process one source column (`model` or `description`): NaN source text is
skipped, otherwise `parse_string` output is merged fill-only. -/
def passSource (r : CarRow) : Option String → CarRow
  | none => r
  | some t => fillRow r (parse_string t)

/-- Per-row body of `extract_car_data`: `model` first, then `description`
(the source texts are read from the row snapshot, which the five filled
fields never touch). -/
def extractRow (r : CarRow) : CarRow :=
  passSource (passSource r r.model) r.description

/-- `extract_car_data` on the whole table. -/
def extract_car_data (rows : List CarRow) : List CarRow :=
  rows.map extractRow

/-! ### `model_cleaning.py`: index construction and the four-strategy matcher -/

/-- First-occurrence deduplication (`seen` accumulates emitted elements). -/
def dedupAux (seen : List String) : List String → List String
  | [] => []
  | x :: xs => if x ∈ seen then dedupAux seen xs else x :: dedupAux (x :: seen) xs

/-- `re.sub(r'([a-z])(\d)', r'\1<ins>\2', model)`: insert `ins` between a
lowercase letter and a digit; matches are non-overlapping, scanning resumes
after the digit. -/
def subLetterDigit (ins : Char) : List Char → List Char
  | [] => []
  | [c] => [c]
  | a :: b :: rest =>
    if ('a' ≤ a && a ≤ 'z') && b.isDigit then a :: ins :: b :: subLetterDigit ins rest
    else a :: subLetterDigit ins (b :: rest)

/-- `_create_model_variations`: the original, the separator-free form, the
hyphenated and the spaced letter/digit forms.  The source collects them in a
Python `set`; here duplicates are dropped keeping the first occurrence of
the insertion order above (the claims below never depend on the iteration
order of colliding variations). -/
def _create_model_variations (model : String) : List String :=
  dedupAux []
    [model,
     String.mk (model.data.filter (fun c => !isSepChar c)),
     String.mk (subLetterDigit '-' model.data),
     String.mk (subLetterDigit ' ' model.data)]

/-- The two lookup structures built by `clean_models_with_list_optimized`:
`exact` models `exact_match_dict` (insertion-ordered association list with
in-place overwrite, i.e. Python `dict` semantics) and `containsD` models
`contains_match_dict` (per-key candidate lists in append order). -/
structure Index where
  exact : List (String × String × String)
  containsD : List (String × List (String × String))
deriving DecidableEq

/-- Python `dict` assignment on an association list. -/
def dictInsert (k : String) (v : String × String) :
    List (String × String × String) → List (String × String × String)
  | [] => [(k, v)]
  | (k', v') :: rest => if k' = k then (k, v) :: rest else (k', v') :: dictInsert k v rest

/-- Append a candidate to the (possibly new) key of `contains_match_dict`. -/
def cmInsert (k : String) (v : String × String) :
    List (String × List (String × String)) → List (String × List (String × String))
  | [] => [(k, [v])]
  | (k', vs) :: rest => if k' = k then (k', vs ++ [v]) :: rest else (k', vs) :: cmInsert k v rest

/-- Register every non-empty normalized variation of one model in both
lookup structures. -/
def addVariations (mfr model : String) (idx : Index) : Index :=
  (_create_model_variations model).foldl
    (fun idx var =>
      let nv := _normalize_text (some var)
      if nv = "" then idx
      else
        { exact := dictInsert nv (model, mfr) idx.exact
          containsD := cmInsert nv (model, mfr) idx.containsD })
    idx

/-- Build both lookup tables from the catalog, then sort every
`containsD` candidate list by model-name length, longest first (stable). -/
def buildIndex (catalog : List (String × List String)) : Index :=
  let raw := catalog.foldl
    (fun idx p => p.2.foldl (fun idx model => addVariations p.1 model idx) idx)
    ⟨[], []⟩
  { raw with
    containsD := raw.containsD.map (fun p => (p.1, sortLenDesc (fun q => q.1.length) p.2)) }

/-- `sorted(contains_match_dict.keys(), key=len, reverse=True)` (stable,
keys in insertion order). -/
def sortedKeys (idx : Index) : List String :=
  sortLenDesc String.length (idx.containsD.map Prod.fst)

/-- `re.search(r'\b' + re.escape(variation) + r'\b', normalized_text)`. -/
def wholeWordB (k nt : String) : Bool :=
  (searchG true (exLit k.data) RE.bnd none nt.data).isSome

/-- Candidate list of one `containsD` key. -/
def lookupCands (idx : Index) (k : String) : Option (List (String × String)) :=
  List.lookup k idx.containsD

/-- Strategy 2, key part: first (longest-first) variation occurring as a
whole word in the normalized text. -/
def strat2Key (idx : Index) (nt : String) : Option String :=
  (sortedKeys idx).find? (fun k => wholeWordB k nt)

/-- Strategy 2 (contains match): top candidate of the first hit key. -/
def strat2 (idx : Index) (nt : String) : Option (String × String) :=
  match strat2Key idx nt with
  | some k => (lookupCands idx k).bind List.head?
  | none => none

/-- Strategy 3 (manufacturer-prefix match): drop the first word and look the
remainder up in `exact_match_dict`. -/
def strat3 (idx : Index) (nt : String) : Option (String × String) :=
  let words := splitWs nt.data
  if 2 ≤ words.length then
    List.lookup (String.mk (joinWords (words.drop 1))) idx.exact
  else none

/-- Strategy 4 (starts-with match): first (longest-first) variation `k`
with `normalized_text.startswith(k + ' ')`. -/
def strat4 (idx : Index) (nt : String) : Option (String × String) :=
  ((sortedKeys idx).find? (fun k => List.isPrefixOf (k.data ++ [' ']) nt.data)).bind
    (fun k => (lookupCands idx k).bind List.head?)

/-- Python truthiness of the `matched_model` variable (`None` and `''` are
falsy), used by the `if not matched_model` chaining in the source. -/
def pyFalsyS : Option String → Bool
  | none => true
  | some s => s == ""

/-- The per-text body of `clean_models_with_list_optimized`: normalize,
then strategy 1 (exact dict hit), else — when the normalized text is
truthy — strategies 2, 3, 4, each entered only while `matched_model` is
still falsy; the final `(matched_model, matched_manufacturer)` pair. -/
def resolve (idx : Index) (text : String) : Option String × Option String :=
  let nt := _normalize_text (some text)
  match List.lookup nt idx.exact with
  | some mv => (some mv.1, some mv.2)
  | none =>
    if nt = "" then (none, none)
    else
      let r2 : Option String × Option String :=
        match strat2 idx nt with
        | some mv => (some mv.1, some mv.2)
        | none => (none, none)
      let r3 := if pyFalsyS r2.1 then
          match strat3 idx nt with
          | some mv => (some mv.1, some mv.2)
          | none => r2
        else r2
      if pyFalsyS r3.1 then
        match strat4 idx nt with
        | some mv => (some mv.1, some mv.2)
        | none => r3
      else r3

/-- One row of the table seen by the matcher: the `model` and
`manufacturer` columns plus all remaining columns bundled in `rest`. -/
structure Row (α : Type) where
  model : Option String
  manufacturer : Option String
  rest : α

/-- `df_clean[model_column].dropna().unique()` (first-occurrence order). -/
def uniqueModels (rows : List (Row α)) : List String :=
  dedupAux [] (rows.filterMap Row.model)

/-- `text_to_result`: the memo table, one strategy-chain evaluation per
distinct raw text. -/
def buildMemo (idx : Index) (rows : List (Row α)) :
    List (String × (Option String × Option String)) :=
  (uniqueModels rows).map (fun t => (t, resolve idx t))

/-- `map_result`: NaN maps to `(None, None)`, otherwise the cached result
with default `(None, None)`. -/
def rowResult (memo : List (String × (Option String × Option String)))
    (r : Row α) : Option String × Option String :=
  match r.model with
  | none => (none, none)
  | some t => (List.lookup t memo).getD (none, none)

/-- The masked column update: rows whose matched model is non-null get both
columns overwritten, all other rows are untouched. -/
def applyResult (res : Option String × Option String) (r : Row α) : Row α :=
  match res.1 with
  | some m => { r with model := some m, manufacturer := res.2 }
  | none => r

/-- `clean_models_with_list_optimized`: an empty loaded catalog returns the
table unchanged (with a warning in the source); otherwise build the index
once, memoize the strategy chain over distinct model texts, and apply the
results row-wise. -/
def clean_models_with_list_optimized (catalog : List (String × List String))
    (rows : List (Row α)) : List (Row α) :=
  if catalog.isEmpty then rows
  else
    let idx := buildIndex catalog
    let memo := buildMemo idx rows
    rows.map (fun r => applyResult (rowResult memo r) r)

/-! ### Character-level facts -/

lemma alnum_toNat {c : Char} (h : isLowerAlphaNum c = true) :
    (97 ≤ c.toNat ∧ c.toNat ≤ 122) ∨ (48 ≤ c.toNat ∧ c.toNat ≤ 57) := by
  unfold isLowerAlphaNum at h
  simp only [Bool.or_eq_true, Bool.and_eq_true, decide_eq_true_eq] at h
  rcases h with ⟨h1, h2⟩ | ⟨h1, h2⟩
  · exact Or.inl ⟨h1, h2⟩
  · exact Or.inr ⟨h1, h2⟩

lemma sep_toNat {c : Char} (h : isSepChar c = true) :
    c.toNat = 32 ∨ c.toNat = 9 ∨ c.toNat = 10 ∨ c.toNat = 13 ∨
    c.toNat = 11 ∨ c.toNat = 12 ∨ c.toNat = 45 ∨ c.toNat = 95 := by
  unfold isSepChar isPySpace at h
  simp only [Bool.or_eq_true, beq_iff_eq] at h
  rcases h with ((((((h | h) | h) | h) | h) | h) | h) | h <;> subst h <;> decide

lemma alnum_not_sep {c : Char} (h : isLowerAlphaNum c = true) : isSepChar c = false := by
  by_contra hc
  rw [Bool.not_eq_false] at hc
  rcases alnum_toNat h with ⟨h1, h2⟩ | ⟨h1, h2⟩ <;>
    rcases sep_toNat hc with g | g | g | g | g | g | g | g <;> omega

lemma alnum_not_space {c : Char} (h : isLowerAlphaNum c = true) : isPySpace c = false := by
  have hs := alnum_not_sep h
  unfold isSepChar at hs
  simp only [Bool.or_eq_false_iff] at hs
  exact hs.1.1

lemma alnum_keep {c : Char} (h : isLowerAlphaNum c = true) : keepChar c = true := by
  simp [keepChar, h]

lemma lowChar_alnum {c : Char} (h : isLowerAlphaNum c = true) : lowChar c = c := by
  have hcond : ('A' ≤ c && c ≤ 'Z') = false := by
    simp only [Bool.and_eq_false_iff, decide_eq_false_iff_not]
    rcases alnum_toNat h with ⟨h1, h2⟩ | ⟨h1, h2⟩
    · right
      intro hc
      have : c.toNat ≤ 90 := hc
      omega
    · left
      intro hc
      have : 65 ≤ c.toNat := hc
      omega
  simp [lowChar, hcond]

/-! ### `splitWs`, `joinWords`, `collapseSeps` lemmas for C7 -/

lemma splitWsAux_words :
    ∀ (l acc : List Char), (∀ c ∈ acc, isPySpace c = false) →
      ∀ w ∈ splitWsAux l acc, w ≠ [] ∧ ∀ c ∈ w, isPySpace c = false := by
  intro l
  induction l with
  | nil =>
    intro acc hacc w hw
    cases acc with
    | nil => simp [splitWsAux] at hw
    | cons a as =>
      simp only [splitWsAux, List.isEmpty_cons, if_neg] at hw
      simp only [Bool.false_eq_true, if_false, List.mem_singleton] at hw
      subst hw
      refine ⟨by simp, ?_⟩
      intro c hc
      exact hacc c (List.mem_reverse.mp hc)
  | cons d rest ih =>
    intro acc hacc w hw
    by_cases hd : isPySpace d = true
    · cases acc with
      | nil =>
        simp only [splitWsAux, hd, if_true, List.isEmpty_nil] at hw
        exact ih [] (by simp) w hw
      | cons a as =>
        simp only [splitWsAux, hd, if_true, List.isEmpty_cons, Bool.false_eq_true, if_false,
          List.mem_cons] at hw
        rcases hw with hw | hw
        · subst hw
          refine ⟨by simp, ?_⟩
          intro c hc
          exact hacc c (List.mem_reverse.mp hc)
        · exact ih [] (by simp) w hw
    · rw [Bool.not_eq_true] at hd
      simp only [splitWsAux, hd, Bool.false_eq_true, if_false] at hw
      refine ih (d :: acc) ?_ w hw
      intro c hc
      rcases List.mem_cons.mp hc with hc | hc
      · subst hc; exact hd
      · exact hacc c hc

lemma splitWsAux_subset :
    ∀ (l acc : List Char), ∀ w ∈ splitWsAux l acc, ∀ c ∈ w, c ∈ l ∨ c ∈ acc := by
  intro l
  induction l with
  | nil =>
    intro acc w hw c hc
    cases acc with
    | nil => simp [splitWsAux] at hw
    | cons a as =>
      simp only [splitWsAux, List.isEmpty_cons, Bool.false_eq_true, if_false,
        List.mem_singleton] at hw
      subst hw
      exact Or.inr (List.mem_reverse.mp hc)
  | cons d rest ih =>
    intro acc w hw c hc
    by_cases hd : isPySpace d = true
    · cases acc with
      | nil =>
        simp only [splitWsAux, hd, if_true, List.isEmpty_nil] at hw
        rcases ih [] w hw c hc with h | h
        · exact Or.inl (List.mem_cons_of_mem d h)
        · simp at h
      | cons a as =>
        simp only [splitWsAux, hd, if_true, List.isEmpty_cons, Bool.false_eq_true, if_false,
          List.mem_cons] at hw
        rcases hw with hw | hw
        · subst hw
          exact Or.inr (List.mem_reverse.mp hc)
        · rcases ih [] w hw c hc with h | h
          · exact Or.inl (List.mem_cons_of_mem d h)
          · simp at h
    · rw [Bool.not_eq_true] at hd
      simp only [splitWsAux, hd, Bool.false_eq_true, if_false] at hw
      rcases ih (d :: acc) w hw c hc with h | h
      · exact Or.inl (List.mem_cons_of_mem d h)
      · rcases List.mem_cons.mp h with h | h
        · subst h; exact Or.inl (List.mem_cons_self _ _)
        · exact Or.inr h

lemma splitWsAux_append (w : List Char) :
    ∀ (l acc : List Char), (∀ c ∈ w, isPySpace c = false) →
      splitWsAux (w ++ l) acc = splitWsAux l (w.reverse ++ acc) := by
  induction w with
  | nil => intro l acc _; simp
  | cons d w' ih =>
    intro l acc hw
    have hd : isPySpace d = false := hw d (List.mem_cons_self _ _)
    have h1 : splitWsAux ((d :: w') ++ l) acc = splitWsAux (w' ++ l) (d :: acc) := by
      simp [splitWsAux, hd]
    rw [h1, ih l (d :: acc) (fun c hc => hw c (List.mem_cons_of_mem d hc))]
    simp [List.reverse_cons, List.append_assoc]

/-- Words that `' '.join` and `split()` round-trip through: nonempty and
whitespace-free. -/
def JoinableWords (ws : List (List Char)) : Prop :=
  ∀ w ∈ ws, w ≠ [] ∧ ∀ c ∈ w, isPySpace c = false

lemma splitWs_joinWords : ∀ (ws : List (List Char)), JoinableWords ws →
    splitWs (joinWords ws) = ws := by
  intro ws
  induction ws with
  | nil => intro _; rfl
  | cons w ws' ih =>
    intro h
    obtain ⟨hw1, hw2⟩ := h w (List.mem_cons_self _ _)
    have hrest : JoinableWords ws' := fun u hu => h u (List.mem_cons_of_mem w hu)
    cases ws' with
    | nil =>
      show splitWsAux w [] = [w]
      rw [show splitWsAux w [] = splitWsAux (w ++ []) [] by simp,
        splitWsAux_append w [] [] hw2]
      cases hwr : w.reverse with
      | nil => exact absurd (by simpa using hwr) hw1
      | cons a as =>
        simp only [List.append_nil, splitWsAux, hwr, List.isEmpty_cons, Bool.false_eq_true,
          if_false]
        rw [← hwr]
        simp
    | cons w2 ws'' =>
      show splitWsAux (joinWords (w :: w2 :: ws'')) [] = w :: w2 :: ws''
      rw [show joinWords (w :: w2 :: ws'') = w ++ ' ' :: joinWords (w2 :: ws'') from rfl,
        splitWsAux_append w _ [] hw2]
      have hsp : isPySpace ' ' = true := by decide
      cases hwr : w.reverse with
      | nil => exact absurd (by simpa using hwr) hw1
      | cons a as =>
        simp only [List.append_nil, splitWsAux, hsp, if_true, hwr, List.isEmpty_cons,
          Bool.false_eq_true, if_false]
        rw [← hwr]
        simpa using ih hrest

lemma collapseSeps_nosep_head {c : Char} (h : isSepChar c = false) (b : Bool) (l : List Char) :
    collapseSeps b (c :: l) = c :: collapseSeps false l := by
  simp [collapseSeps, h]

lemma collapseSeps_append (w : List Char) :
    ∀ (b : Bool) (l : List Char), (∀ c ∈ w, isSepChar c = false) →
      collapseSeps b (w ++ l) = w ++ collapseSeps b l ∨ (w ≠ [] ∧
      collapseSeps b (w ++ l) = w ++ collapseSeps false l) := by
  induction w with
  | nil => intro b l _; simp
  | cons d w' ih =>
    intro b l hw
    have hd : isSepChar d = false := hw d (List.mem_cons_self _ _)
    right
    refine ⟨by simp, ?_⟩
    simp only [List.cons_append, collapseSeps_nosep_head hd]
    rcases ih false l (fun c hc => hw c (List.mem_cons_of_mem d hc)) with h | ⟨_, h⟩ <;>
      rw [h]

/-- Words whose characters are never collapsed: nonempty and separator-free. -/
def NoSepWords (ws : List (List Char)) : Prop :=
  ∀ w ∈ ws, w ≠ [] ∧ ∀ c ∈ w, isSepChar c = false

lemma joinWords_cons_cons (c : Char) (t : List Char) (ws : List (List Char)) :
    ∃ rest, joinWords ((c :: t) :: ws) = c :: rest := by
  cases ws with
  | nil => exact ⟨t, rfl⟩
  | cons w2 ws' => exact ⟨t ++ ' ' :: joinWords (w2 :: ws'), rfl⟩

lemma collapseSeps_joinWords : ∀ (ws : List (List Char)), NoSepWords ws →
    collapseSeps false (joinWords ws) = joinWords ws := by
  intro ws
  induction ws with
  | nil => intro _; rfl
  | cons w ws' ih =>
    intro h
    obtain ⟨hw1, hw2⟩ := h w (List.mem_cons_self _ _)
    have hrest : NoSepWords ws' := fun u hu => h u (List.mem_cons_of_mem w hu)
    cases ws' with
    | nil =>
      show collapseSeps false (joinWords [w]) = joinWords [w]
      have : joinWords [w] = w ++ [] := by simp [joinWords]
      rw [this]
      rcases collapseSeps_append w false [] hw2 with hc | ⟨_, hc⟩ <;> rw [hc] <;> rfl
    | cons w2 ws'' =>
      obtain ⟨hw21, hw22⟩ := hrest w2 (List.mem_cons_self _ _)
      cases hw2c : w2 with
      | nil => exact absurd hw2c hw21
      | cons c2 t2 =>
        subst hw2c
        have hc2 : isSepChar c2 = false := hw22 c2 (List.mem_cons_self _ _)
        obtain ⟨rest2, hrest2⟩ := joinWords_cons_cons c2 t2 ws''
        have hsp : isSepChar ' ' = true := by decide
        have hkey : collapseSeps false (' ' :: joinWords ((c2 :: t2) :: ws'')) =
            ' ' :: joinWords ((c2 :: t2) :: ws'') := by
          rw [hrest2]
          have h1 : collapseSeps false (' ' :: c2 :: rest2) =
              ' ' :: collapseSeps true (c2 :: rest2) := by
            simp [collapseSeps, hsp]
          rw [h1, collapseSeps_nosep_head hc2, ← collapseSeps_nosep_head hc2 false, ← hrest2,
            ih hrest]
        have hjw : joinWords (w :: (c2 :: t2) :: ws'') =
            w ++ ' ' :: joinWords ((c2 :: t2) :: ws'') := rfl
        rw [hjw]
        rcases collapseSeps_append w false (' ' :: joinWords ((c2 :: t2) :: ws'')) hw2 with
          hc | ⟨_, hc⟩ <;> rw [hc, hkey]

lemma mem_joinWords {c : Char} : ∀ (ws : List (List Char)), c ∈ joinWords ws →
    c = ' ' ∨ ∃ w ∈ ws, c ∈ w := by
  intro ws
  induction ws with
  | nil => intro h; simp [joinWords] at h
  | cons w ws' ih =>
    intro h
    cases ws' with
    | nil =>
      right
      exact ⟨w, List.mem_cons_self _ _, h⟩
    | cons w2 ws'' =>
      rcases List.mem_append.mp h with h | h
      · exact Or.inr ⟨w, List.mem_cons_self _ _, h⟩
      · rcases List.mem_cons.mp h with h | h
        · exact Or.inl h
        · rcases ih h with h | ⟨u, hu, hc⟩
          · exact Or.inl h
          · exact Or.inr ⟨u, List.mem_cons_of_mem w hu, hc⟩

/-- Word lists which `normList` sends to themselves (joined): nonempty words
of lowercase alphanumeric characters. -/
def GoodWords (ws : List (List Char)) : Prop :=
  ∀ w ∈ ws, w ≠ [] ∧ ∀ c ∈ w, isLowerAlphaNum c = true

lemma goodWords_norm (l : List Char) :
    GoodWords (splitWs ((collapseSeps false (pyLower l)).filter keepChar)) := by
  intro w hw
  have h1 := splitWsAux_words _ [] (by simp) w hw
  refine ⟨h1.1, ?_⟩
  intro c hc
  have h2 := splitWsAux_subset _ [] w hw c hc
  rcases h2 with h2 | h2
  · have hk : keepChar c = true := (List.mem_filter.mp h2).2
    have hns : isPySpace c = false := h1.2 c hc
    unfold keepChar at hk
    rcases Bool.or_eq_true_iff.mp hk with hk | hk
    · exact hk
    · rw [hns] at hk; exact absurd hk (by simp)
  · simp at h2

lemma normList_fix {ws : List (List Char)} (h : GoodWords ws) :
    normList (joinWords ws) = joinWords ws := by
  have hlow : pyLower (joinWords ws) = joinWords ws := by
    unfold pyLower
    rw [show (joinWords ws).map lowChar = (joinWords ws).map id from ?_, List.map_id]
    refine List.map_congr_left ?_
    intro c hc
    rcases mem_joinWords _ hc with hc' | ⟨w, hw, hcw⟩
    · subst hc'; decide
    · exact lowChar_alnum ((h w hw).2 c hcw)
  have hcol : collapseSeps false (joinWords ws) = joinWords ws := by
    refine collapseSeps_joinWords ws ?_
    intro w hw
    exact ⟨(h w hw).1, fun c hc => alnum_not_sep ((h w hw).2 c hc)⟩
  have hfil : (joinWords ws).filter keepChar = joinWords ws := by
    rw [List.filter_eq_self]
    intro c hc
    rcases mem_joinWords _ hc with hc' | ⟨w, hw, hcw⟩
    · subst hc'; decide
    · exact alnum_keep ((h w hw).2 c hcw)
  have hsplit : splitWs (joinWords ws) = ws := by
    refine splitWs_joinWords ws ?_
    intro w hw
    exact ⟨(h w hw).1, fun c hc => alnum_not_space ((h w hw).2 c hc)⟩
  unfold normList
  rw [hlow, hcol, hfil, hsplit]

/-- **C7** — Normalization is an idempotent projection: for every string,
`_normalize_text (_normalize_text x) = _normalize_text x` (and it is a pure
Lean function, hence deterministic and side-effect free), and null/NaN input
yields the empty string. -/
theorem c7_normalize_idempotent_projection :
    (∀ s : String, _normalize_text (some (_normalize_text (some s))) = _normalize_text (some s))
    ∧ _normalize_text none = "" := by
  constructor
  · intro s
    show String.mk (normList (normList s.data)) = String.mk (normList s.data)
    congr 1
    have : normList s.data =
        joinWords (splitWs ((collapseSeps false (pyLower s.data)).filter keepChar)) := rfl
    rw [this, normList_fix (goodWords_norm s.data)]
  · rfl

/-! ### C2, C9, C10, C4, C5: the matcher's strategy order, degradation,
frame property, passthrough and memoization -/

/-- **C2** — Strategy ordering: whenever the normalized raw text is a key of
`exact_match_dict`, `resolve` returns exactly that key's entry (strategy 1);
the later strategies are never consulted. -/
theorem c2_exact_match_resolves_first (idx : Index) (text : String) (m mf : String)
    (h : List.lookup (_normalize_text (some text)) idx.exact = some (m, mf)) :
    resolve idx text = (some m, some mf) := by
  unfold resolve
  simp only [h]

/-- Witness for C2: catalog `honda → [civic]`, raw text `"Civic!"`
normalizes to the exact key `"civic"` and strategy 1 answers. -/
theorem c2_witness :
    resolve (buildIndex [("honda", ["civic"])]) "Civic!" = (some "civic", some "honda") :=
  c2_exact_match_resolves_first (buildIndex [("honda", ["civic"])]) "Civic!" "civic" "honda"
    (by decide)

lemma applyResult_rest {α : Type} (res : Option String × Option String) (r : Row α) :
    (applyResult res r).rest = r.rest := by
  cases hres : res.1 <;> simp [applyResult, hres]

/-- **C10** — Frame property: the matcher only ever touches the `model` and
`manufacturer` columns; every other column (`rest`), the number of rows and
their order are unchanged. -/
theorem c10_frame_only_model_manufacturer {α : Type}
    (catalog : List (String × List String)) (rows : List (Row α)) :
    (clean_models_with_list_optimized catalog rows).map Row.rest = rows.map Row.rest ∧
    (clean_models_with_list_optimized catalog rows).length = rows.length := by
  unfold clean_models_with_list_optimized
  by_cases hc : catalog.isEmpty
  · simp [hc]
  · constructor
    · simp only [hc, Bool.false_eq_true, if_false, List.map_map]
      refine List.map_congr_left ?_
      intro r _
      exact applyResult_rest _ r
    · simp [hc]

/-- **C9** — Catalog-load failure degrades to a no-op: with the empty loaded
mapping the whole table is returned unchanged, and even the strategy chain
itself matches nothing (`(None, None)` for every input).  (The accompanying
warning print is I/O outside this embedding; the source raises nothing on
this path.) -/
theorem c9_empty_catalog_noop {α : Type} (rows : List (Row α)) :
    clean_models_with_list_optimized [] rows = rows ∧
    ∀ t : String, resolve (buildIndex []) t = (none, none) := by
  constructor
  · rfl
  · intro t
    have hidx : buildIndex ([] : List (String × List String)) = ⟨[], []⟩ := rfl
    unfold resolve
    rw [hidx]
    simp [strat2, strat2Key, strat3, strat4, sortedKeys, sortLenDesc, List.lookup]

lemma lookup_map_self {β : Type} (f : String → β) :
    ∀ (ts : List String) (t : String),
      List.lookup t (ts.map (fun x => (x, f x))) = if t ∈ ts then some (f t) else none := by
  intro ts
  induction ts with
  | nil => intro t; simp
  | cons x xs ih =>
    intro t
    by_cases hx : x = t
    · subst hx
      simp [List.lookup]
    · have hbeq : (t == x) = false := beq_eq_false_iff_ne.mpr (Ne.symm hx)
      simp only [List.map_cons, List.lookup, hbeq, ih, List.mem_cons]
      have : (t = x ∨ t ∈ xs) ↔ t ∈ xs := by
        constructor
        · rintro (h | h)
          · exact absurd h.symm hx
          · exact h
        · exact Or.inr
      rw [if_congr this rfl rfl]

lemma memo_lookup {α : Type} (idx : Index) (rows : List (Row α)) (t : String) :
    List.lookup t (buildMemo idx rows) =
      if t ∈ uniqueModels rows then some (resolve idx t) else none :=
  lookup_map_self (resolve idx) (uniqueModels rows) t

lemma resolve_none_of_strats (idx : Index) (text : String)
    (h1 : List.lookup (_normalize_text (some text)) idx.exact = none)
    (h2 : strat2 idx (_normalize_text (some text)) = none)
    (h3 : strat3 idx (_normalize_text (some text)) = none)
    (h4 : strat4 idx (_normalize_text (some text)) = none) :
    resolve idx text = (none, none) := by
  unfold resolve
  simp only [h1, h2, h3, h4]
  by_cases he : _normalize_text (some text) = "" <;> simp [he, pyFalsyS]

/-- **C4** — No-match passthrough: when all four strategies fail on a row's
raw model text, the chain yields `(None, None)` and that row — its existing
`model` and `manufacturer` values included — appears unchanged in the
output table. -/
theorem c4_no_match_passthrough {α : Type} (catalog : List (String × List String))
    (rows : List (Row α)) (text : String) (i : Nat) (r : Row α)
    (h1 : List.lookup (_normalize_text (some text)) (buildIndex catalog).exact = none)
    (h2 : strat2 (buildIndex catalog) (_normalize_text (some text)) = none)
    (h3 : strat3 (buildIndex catalog) (_normalize_text (some text)) = none)
    (h4 : strat4 (buildIndex catalog) (_normalize_text (some text)) = none) :
    resolve (buildIndex catalog) text = (none, none) ∧
    (rows[i]? = some r → r.model = some text →
      (clean_models_with_list_optimized catalog rows)[i]? = some r) := by
  have hres : resolve (buildIndex catalog) text = (none, none) :=
    resolve_none_of_strats _ _ h1 h2 h3 h4
  refine ⟨hres, ?_⟩
  intro hget hmod
  unfold clean_models_with_list_optimized
  by_cases hc : catalog.isEmpty
  · simpa [hc] using hget
  · simp only [hc, Bool.false_eq_true, if_false, List.getElem?_map, hget]
    have hrow : rowResult (buildMemo (buildIndex catalog) rows) r = (none, none) := by
      unfold rowResult
      rw [hmod]
      show (List.lookup text (buildMemo (buildIndex catalog) rows)).getD (none, none) =
        (none, none)
      rw [memo_lookup]
      by_cases hmem : text ∈ uniqueModels rows <;> simp [hmem, hres]
    show some (applyResult (rowResult (buildMemo (buildIndex catalog) rows) r) r) = some r
    rw [hrow]
    rfl

/-- Witness for C4: a text matching nothing in the catalog flows through
with the row untouched. -/
theorem c4_witness :
    resolve (buildIndex [("honda", ["civic"])]) "zzz" = (none, none) ∧
    (clean_models_with_list_optimized [("honda", ["civic"])]
        [({ model := some "zzz", manufacturer := some "m", rest := 0 } : Row Nat)])[0]? =
      some { model := some "zzz", manufacturer := some "m", rest := 0 } := by
  have h := c4_no_match_passthrough [("honda", ["civic"])]
      [({ model := some "zzz", manufacturer := some "m", rest := 0 } : Row Nat)] "zzz" 0
      { model := some "zzz", manufacturer := some "m", rest := 0 }
      (by decide) (by decide) (by decide) (by decide)
  exact ⟨h.1, h.2 rfl rfl⟩

lemma dedupAux_nodup : ∀ (l seen : List String),
    (dedupAux seen l).Nodup ∧ ∀ x ∈ dedupAux seen l, x ∉ seen := by
  intro l
  induction l with
  | nil => intro seen; simp [dedupAux]
  | cons x xs ih =>
    intro seen
    by_cases hx : x ∈ seen
    · simpa [dedupAux, hx] using ih seen
    · have ihx := ih (x :: seen)
      simp only [dedupAux, hx, if_neg, not_false_iff, if_true]
      constructor
      · refine List.nodup_cons.mpr ⟨?_, ihx.1⟩
        intro hmem
        exact ihx.2 x hmem (List.mem_cons_self _ _)
      · intro y hy
        rcases List.mem_cons.mp hy with hy | hy
        · subst hy; exact hx
        · intro hys
          exact ihx.2 y hy (List.mem_cons_of_mem x hys)

/-- **C5** — Memoization correctness: any two rows with identical raw model
text get the identical `MatchResult`; the memo holds, for every distinct
text, exactly the strategy chain's answer; and its key list enumerates each
distinct raw text exactly once. -/
theorem c5_memoization_correct {α : Type} (catalog : List (String × List String))
    (rows : List (Row α)) :
    (∀ r1 r2 : Row α, r1.model = r2.model →
        rowResult (buildMemo (buildIndex catalog) rows) r1 =
        rowResult (buildMemo (buildIndex catalog) rows) r2) ∧
    (∀ t ∈ uniqueModels rows,
        List.lookup t (buildMemo (buildIndex catalog) rows) =
          some (resolve (buildIndex catalog) t)) ∧
    (uniqueModels rows).Nodup ∧
    (buildMemo (buildIndex catalog) rows).map Prod.fst = uniqueModels rows := by
  refine ⟨?_, ?_, ?_, ?_⟩
  · intro r1 r2 h
    unfold rowResult
    rw [h]
  · intro t ht
    rw [memo_lookup]
    simp [ht]
  · exact (dedupAux_nodup _ []).1
  · unfold buildMemo
    rw [List.map_map]
    have hpt : ∀ a ∈ uniqueModels rows,
        (Prod.fst ∘ fun t => (t, resolve (buildIndex catalog) t)) a = id a := fun a _ => rfl
    rw [List.map_congr_left hpt, List.map_id]

/-- Witness for C5: two rows sharing the text `"civic lx"` receive the same
cached result, which equals the direct strategy-chain evaluation. -/
theorem c5_witness :
    rowResult (buildMemo (buildIndex [("honda", ["civic"])])
        [({ model := some "civic lx", manufacturer := some "a", rest := 1 } : Row Nat),
         { model := some "civic lx", manufacturer := some "b", rest := 2 }])
      { model := some "civic lx", manufacturer := some "a", rest := 1 } =
    rowResult (buildMemo (buildIndex [("honda", ["civic"])])
        [({ model := some "civic lx", manufacturer := some "a", rest := 1 } : Row Nat),
         { model := some "civic lx", manufacturer := some "b", rest := 2 }])
      { model := some "civic lx", manufacturer := some "b", rest := 2 } ∧
    List.lookup "civic lx" (buildMemo (buildIndex [("honda", ["civic"])])
        [({ model := some "civic lx", manufacturer := some "a", rest := 1 } : Row Nat),
         { model := some "civic lx", manufacturer := some "b", rest := 2 }]) =
      some (resolve (buildIndex [("honda", ["civic"])]) "civic lx") := by
  have h := c5_memoization_correct [("honda", ["civic"])]
      [({ model := some "civic lx", manufacturer := some "a", rest := 1 } : Row Nat),
       { model := some "civic lx", manufacturer := some "b", rest := 2 }]
  exact ⟨h.1 _ _ rfl, h.2.1 "civic lx" (by decide)⟩

/-! ### C3: longest-variation preference in the contains-match -/

lemma mem_insertLenDesc {α : Type} {len : α → Nat} {x z : α} :
    ∀ (l : List α), z ∈ insertLenDesc len x l ↔ z = x ∨ z ∈ l := by
  intro l
  induction l with
  | nil => simp [insertLenDesc]
  | cons y ys ih =>
    simp only [insertLenDesc]
    by_cases h : len x < len y
    · rw [if_pos h]
      simp only [List.mem_cons, ih]
      tauto
    · rw [if_neg h]
      simp [List.mem_cons]

lemma pairwise_insertLenDesc {α : Type} {len : α → Nat} (x : α) :
    ∀ (l : List α), l.Pairwise (fun a b => len b ≤ len a) →
      (insertLenDesc len x l).Pairwise (fun a b => len b ≤ len a) := by
  intro l
  induction l with
  | nil => intro _; simp [insertLenDesc]
  | cons y ys ih =>
    intro hp
    rw [List.pairwise_cons] at hp
    obtain ⟨hy, hys⟩ := hp
    simp only [insertLenDesc]
    by_cases h : len x < len y
    · simp only [h, if_true]
      rw [List.pairwise_cons]
      refine ⟨?_, ih hys⟩
      intro z hz
      rcases (mem_insertLenDesc ys).mp hz with hz | hz
      · subst hz; omega
      · exact hy z hz
    · simp only [h, if_false]
      rw [List.pairwise_cons]
      refine ⟨?_, List.pairwise_cons.mpr ⟨hy, hys⟩⟩
      intro z hz
      rcases List.mem_cons.mp hz with hz | hz
      · subst hz; omega
      · have := hy z hz; omega

lemma sortLenDesc_pairwise {α : Type} {len : α → Nat} :
    ∀ (l : List α), (sortLenDesc len l).Pairwise (fun a b => len b ≤ len a) := by
  intro l
  induction l with
  | nil => simp [sortLenDesc]
  | cons x xs ih => exact pairwise_insertLenDesc x _ ih

lemma mem_sortLenDesc {α : Type} {len : α → Nat} {z : α} :
    ∀ (l : List α), z ∈ sortLenDesc len l ↔ z ∈ l := by
  intro l
  induction l with
  | nil => simp [sortLenDesc]
  | cons x xs ih => simp [sortLenDesc, mem_insertLenDesc, ih]

lemma find_first_longest {α : Type} {len : α → Nat} (p : α → Bool) :
    ∀ (l : List α), l.Pairwise (fun a b => len b ≤ len a) →
      ∀ k, l.find? p = some k → ∀ k' ∈ l, p k' = true → len k' ≤ len k := by
  intro l
  induction l with
  | nil => intro _ k hk; simp at hk
  | cons a t ih =>
    intro hp k hk k' hk' hp'
    rw [List.pairwise_cons] at hp
    by_cases ha : p a = true
    · rw [List.find?_cons_of_pos _ ha] at hk
      injection hk with hk
      subst hk
      rcases List.mem_cons.mp hk' with h | h
      · subst h; exact le_refl _
      · exact hp.1 k' h
    · rw [List.find?_cons_of_neg _ ha] at hk
      rcases List.mem_cons.mp hk' with h | h
      · subst h; exact absurd hp' ha
      · exact ih hp.2 k hk k' h hp'

/-- **C3** — Longest-variation preference: whenever the contains-match
strategy answers with key `k`, every known variation occurring as a
whole-word substring of the normalized text is at most as long as `k` (the
scan is longest-first, first hit wins); and concretely, with catalog models
`civic` and `civic-type-r`, the input `"2015 honda civic type r sedan"`
resolves to `("civic-type-r", "honda")`, not to `"civic"`. -/
theorem c3_longest_variation_preference :
    (∀ (idx : Index) (nt k : String), strat2Key idx nt = some k →
        ∀ k' ∈ idx.containsD.map Prod.fst, wholeWordB k' nt = true →
          k'.length ≤ k.length) ∧
    resolve (buildIndex [("honda", ["civic", "civic-type-r"])]) "2015 honda civic type r sedan" =
      (some "civic-type-r", some "honda") := by
  constructor
  · intro idx nt k hk k' hmem hww
    have hpw := @sortLenDesc_pairwise String String.length (idx.containsD.map Prod.fst)
    have hmem' : k' ∈ sortedKeys idx := (mem_sortLenDesc _).mpr hmem
    exact find_first_longest _ _ hpw k hk k' hmem' hww
  · decide

/-- Witness for C3: on the concrete catalog, the contains-match key is
`"civic type r"` and the also-matching shorter variation `"civic"` is
correctly out-ranked. -/
theorem c3_witness :
    strat2Key (buildIndex [("honda", ["civic", "civic-type-r"])])
      "2015 honda civic type r sedan" = some "civic type r" ∧
    ("civic" : String).length ≤ ("civic type r" : String).length := by
  refine ⟨by decide, ?_⟩
  exact c3_longest_variation_preference.1 (buildIndex [("honda", ["civic", "civic-type-r"])])
    "2015 honda civic type r sedan" "civic type r" (by decide) "civic" (by decide) (by decide)

/-! ### C8: drive-category precedence -/

/-- **C8** — Drive extraction precedence: the `4wd`-category pattern
(`4d|4wd|awd|all.?wheel.?drive|4x4`) is tested first and decides the result
whenever it matches anywhere, regardless of `rwd`/`fwd` tokens; the
`rwd`-category pattern decides next whenever the first misses; and in
particular `parse_string "4wd fwd wagon"` extracts drive `"4wd"`. -/
theorem c8_drive_category_precedence :
    (∀ ts : List Char, (searchG true driveG1 RE.bnd none ts).isSome →
        extractDrive ts = (searchG true driveG1 RE.bnd none ts).map drivePost) ∧
    (∀ ts : List Char, searchG true driveG1 RE.bnd none ts = none →
        (searchG true driveG2 RE.bnd none ts).isSome →
        extractDrive ts = (searchG true driveG2 RE.bnd none ts).map drivePost) ∧
    (parse_string "4wd fwd wagon").drive = some "4wd" := by
  refine ⟨?_, ?_, ?_⟩
  · intro ts h
    unfold extractDrive
    cases hs : searchG true driveG1 RE.bnd none ts with
    | some g => simp [hs]
    | none => rw [hs] at h; simp at h
  · intro ts h1 h2
    unfold extractDrive
    rw [h1]
    cases hs : searchG true driveG2 RE.bnd none ts with
    | some g => simp [hs]
    | none => rw [hs] at h2; simp at h2
  · decide

/-- Witness for C8: on `"4wd fwd wagon"` — where both the 4wd and the fwd
category match — the first category decides and yields `"4wd"`. -/
theorem c8_witness : extractDrive ("4wd fwd wagon".data) = some "4wd" := by
  have h := c8_drive_category_precedence.1 ("4wd fwd wagon".data) (by decide)
  rw [h]
  decide

/-! ### C1, C6: what the extracted values look like

`HeadSat P r` says: any successful match of `r` consumes at least one
character and its first character satisfies `P`.  All the capturing groups
of `parse_string` start with a character class, so their matches have known
first characters; this is what makes the filled values non-empty,
non-blank and distinct from the `'nan'` sentinel. -/

inductive HeadSat (P : Char → Bool) : RE → Prop where
  | cls (p : Char → Bool) (h : ∀ c, p c = true → P c = true) : HeadSat P (RE.cls p)
  | seq (a b : RE) (h : HeadSat P a) : HeadSat P (RE.seq a b)
  | alt (a b : RE) (ha : HeadSat P a) (hb : HeadSat P b) : HeadSat P (RE.alt a b)

lemma matchk_head {P : Char → Bool} {r : RE} (hr : HeadSat P r) :
    ∀ (prev : Option Char) (l : List Char) (k : Option Char → List Char → Option Nat) (n : Nat),
      matchk r prev l k = some n → ∃ d t, l = d :: t ∧ P d = true ∧ 1 ≤ n := by
  induction hr with
  | cls p hp =>
    intro prev l k n hm
    cases l with
    | nil => simp [matchk] at hm
    | cons d t =>
      simp only [matchk] at hm
      by_cases hd : p d = true
      · rw [if_pos hd] at hm
        rcases Option.map_eq_some'.mp hm with ⟨m, _, hnm⟩
        exact ⟨d, t, rfl, hp d hd, by omega⟩
      · rw [if_neg hd] at hm
        cases hm
  | seq a b _ ih =>
    intro prev l k n hm
    simp only [matchk] at hm
    exact ih prev l _ n hm
  | alt a b _ _ iha ihb =>
    intro prev l k n hm
    simp only [matchk] at hm
    cases hma : matchk a prev l k with
    | some m =>
      rw [hma] at hm
      injection hm with hm
      subst hm
      exact iha prev l k m hma
    | none =>
      rw [hma] at hm
      exact ihb prev l k n hm

lemma searchG_head {P : Char → Bool} {needB : Bool} {grp post : RE} (hgs : HeadSat P grp) :
    ∀ (l : List Char) (prev : Option Char) (g : List Char),
      searchG needB grp post prev l = some g → ∃ d t, g = d :: t ∧ P d = true := by
  intro l
  induction l with
  | nil =>
    intro prev g hs
    simp only [searchG] at hs
    cases ht : tryHere needB grp post prev [] with
    | none => rw [ht] at hs; cases hs
    | some n =>
      rw [ht] at hs
      unfold tryHere at ht
      by_cases hb : (!needB || atBoundary prev []) = true
      · rw [if_pos hb] at ht
        obtain ⟨d, t, hdt, _, _⟩ := matchk_head hgs prev [] _ n ht
        cases hdt
      · rw [if_neg hb] at ht
        cases ht
  | cons d0 rest ih =>
    intro prev g hs
    simp only [searchG] at hs
    cases ht : tryHere needB grp post prev (d0 :: rest) with
    | none =>
      rw [ht] at hs
      exact ih (some d0) g hs
    | some n =>
      rw [ht] at hs
      injection hs with hs
      unfold tryHere at ht
      by_cases hb : (!needB || atBoundary prev (d0 :: rest)) = true
      · rw [if_pos hb] at ht
        obtain ⟨d, t, hdt, hPd, hn⟩ := matchk_head hgs prev (d0 :: rest) _ n ht
        injection hdt with hdt1 hdt2
        subst hdt1
        refine ⟨d0, rest.take (n - 1), ?_, hPd⟩
        rw [← hs]
        cases n with
        | zero => omega
        | succ m => simp [List.take]
      · rw [if_neg hb] at ht
        cases ht

lemma headSat_ciLit {P : Char → Bool} (c : Char) (s : List Char)
    (h : ∀ d, lowChar d = lowChar c → P d = true) : HeadSat P (ciLit (c :: s)) := by
  refine HeadSat.seq _ _ (HeadSat.cls _ ?_)
  intro d hd
  exact h d (by simpa [ciCls] using hd)

lemma headSat_exLit {P : Char → Bool} (c : Char) (s : List Char)
    (h : ∀ d, d = c → P d = true) : HeadSat P (exLit (c :: s)) := by
  refine HeadSat.seq _ _ (HeadSat.cls _ ?_)
  intro d hd
  exact h d (by simpa [exCls] using hd)

/-- First characters of `(19|20)\d{2}`. -/
def yearHead (d : Char) : Bool := d == '1' || d == '2'

lemma headSat_yearGrp : HeadSat yearHead yearGrp := by
  refine HeadSat.seq _ _ (HeadSat.alt _ _ ?_ ?_)
  · exact headSat_exLit '1' _ (fun d hd => by subst hd; rfl)
  · exact headSat_exLit '2' _ (fun d hd => by subst hd; rfl)

/-- First characters (lower-cased) of the 4wd-category alternatives. -/
def drive1Head (d : Char) : Bool := lowChar d == '4' || lowChar d == 'a'

/-- First characters (lower-cased) of the rwd-category alternatives. -/
def drive2Head (d : Char) : Bool := lowChar d == '2' || lowChar d == 'r'

/-- First characters (lower-cased) of the fwd-category alternatives. -/
def drive3Head (d : Char) : Bool := lowChar d == 'f'

lemma headSat_driveG1 : HeadSat drive1Head driveG1 := by
  refine HeadSat.alt _ _ ?_ (HeadSat.alt _ _ ?_ (HeadSat.alt _ _ ?_ (HeadSat.alt _ _ ?_ ?_)))
  · exact headSat_ciLit '4' _ (fun d hd => by simp [drive1Head, hd]; left; rfl)
  · exact headSat_ciLit '4' _ (fun d hd => by simp [drive1Head, hd]; left; rfl)
  · exact headSat_ciLit 'a' _ (fun d hd => by simp [drive1Head, hd]; right; rfl)
  · exact HeadSat.seq _ _ (headSat_ciLit 'a' _ (fun d hd => by simp [drive1Head, hd]; right; rfl))
  · exact headSat_ciLit '4' _ (fun d hd => by simp [drive1Head, hd]; left; rfl)

lemma headSat_driveG2 : HeadSat drive2Head driveG2 := by
  refine HeadSat.alt _ _ ?_ (HeadSat.alt _ _ ?_ ?_)
  · exact headSat_ciLit '2' _ (fun d hd => by simp [drive2Head, hd]; left; rfl)
  · exact headSat_ciLit 'r' _ (fun d hd => by simp [drive2Head, hd]; right; rfl)
  · exact HeadSat.seq _ _ (headSat_ciLit 'r' _ (fun d hd => by simp [drive2Head, hd]; right; rfl))

lemma headSat_driveG3 : HeadSat drive3Head driveG3 := by
  refine HeadSat.alt _ _ ?_ ?_
  · exact headSat_ciLit 'f' _ (fun d hd => by simp [drive3Head, hd]; rfl)
  · exact HeadSat.seq _ _ (headSat_ciLit 'f' _ (fun d hd => by simp [drive3Head, hd]; rfl))

/-- First characters (lower-cased) of the body-type alternatives. -/
def typeHead (d : Char) : Bool :=
  lowChar d == 's' || lowChar d == 'c' || lowChar d == 'h' || lowChar d == 'w' ||
  lowChar d == 'p' || lowChar d == 't' || lowChar d == 'v' || lowChar d == 'm' ||
  lowChar d == 'o' || lowChar d == 'b'

lemma headSat_typeGrp : HeadSat typeHead typeGrp := by
  refine HeadSat.alt _ _ ?_ (HeadSat.alt _ _ ?_ (HeadSat.alt _ _ ?_ (HeadSat.alt _ _ ?_
    (HeadSat.alt _ _ ?_ (HeadSat.alt _ _ ?_ (HeadSat.alt _ _ ?_ (HeadSat.alt _ _ ?_
    (HeadSat.alt _ _ ?_ (HeadSat.alt _ _ ?_ (HeadSat.alt _ _ ?_
    (HeadSat.alt _ _ ?_ ?_)))))))))))
  · exact headSat_ciLit 's' _ (fun d hd => by simp [typeHead, hd]; decide)
  · exact headSat_ciLit 'c' _ (fun d hd => by simp [typeHead, hd]; decide)
  · exact headSat_ciLit 's' _ (fun d hd => by simp [typeHead, hd]; decide)
  · exact headSat_ciLit 'h' _ (fun d hd => by simp [typeHead, hd]; decide)
  · exact headSat_ciLit 'w' _ (fun d hd => by simp [typeHead, hd]; decide)
  · exact headSat_ciLit 'c' _ (fun d hd => by simp [typeHead, hd]; decide)
  · exact headSat_ciLit 'p' _ (fun d hd => by simp [typeHead, hd]; decide)
  · exact headSat_ciLit 't' _ (fun d hd => by simp [typeHead, hd]; decide)
  · exact headSat_ciLit 'v' _ (fun d hd => by simp [typeHead, hd]; decide)
  · exact HeadSat.seq _ _ (headSat_ciLit 'm' _ (fun d hd => by simp [typeHead, hd]; decide))
  · exact headSat_ciLit 'm' _ (fun d hd => by simp [typeHead, hd]; decide)
  · exact headSat_ciLit 'o' _ (fun d hd => by simp [typeHead, hd]; decide)
  · exact headSat_ciLit 'b' _ (fun d hd => by simp [typeHead, hd]; decide)

/-! ### Solid cells: non-empty, non-blank, not the `'nan'` sentinel -/

lemma mem_dropWhile_of_mem {p : Char → Bool} {c : Char} :
    ∀ {l : List Char}, c ∈ l → p c = false → c ∈ l.dropWhile p := by
  intro l
  induction l with
  | nil => intro h; simp at h
  | cons a t ih =>
    intro hc hp
    rcases List.mem_cons.mp hc with hc | hc
    · subst hc
      rw [List.dropWhile_cons, if_neg (by simp [hp])]
      exact List.mem_cons_self _ _
    · by_cases ha : p a = true
      · rw [List.dropWhile_cons, if_pos (by simp [ha])]
        exact ih hc hp
      · rw [List.dropWhile_cons, if_neg ha]
        exact List.mem_cons_of_mem a hc

lemma pyStrip_ne_nil {c : Char} {l : List Char} (hc : c ∈ l) (hp : isPySpace c = false) :
    pyStrip l ≠ [] := by
  unfold pyStrip
  have h1 : c ∈ l.dropWhile isPySpace := mem_dropWhile_of_mem hc hp
  have h2 : c ∈ (l.dropWhile isPySpace).reverse := List.mem_reverse.mpr h1
  have h3 : c ∈ (l.dropWhile isPySpace).reverse.dropWhile isPySpace :=
    mem_dropWhile_of_mem h2 hp
  have h4 : c ∈ ((l.dropWhile isPySpace).reverse.dropWhile isPySpace).reverse :=
    List.mem_reverse.mpr h3
  exact List.ne_nil_of_mem h4

lemma cellEmpty_false_of (s : String) (h1 : pyStrip s.data ≠ [])
    (h2 : pyLower s.data ≠ "nan".data) : cellEmpty (some s) = false := by
  show ((pyStrip s.data).isEmpty || (pyLower s.data == "nan".data)) = false
  rw [Bool.or_eq_false_iff]
  constructor
  · cases hs : pyStrip s.data with
    | nil => exact absurd hs h1
    | cons a t => simp
  · exact beq_eq_false_iff_ne.mpr h2

lemma cellEmpty_false_head (c : Char) (t : List Char)
    (h1 : isPySpace c = false) (h2 : lowChar c ≠ 'n') :
    cellEmpty (some (String.mk (c :: t))) = false := by
  refine cellEmpty_false_of _ (pyStrip_ne_nil (List.mem_cons_self _ _) h1) ?_
  intro heq
  have : lowChar c :: pyLower t = 'n' :: ['a', 'n'] := heq
  exact h2 (List.cons.injEq _ _ _ _ ▸ this).1

/-- `v` is either absent or a non-empty, non-blank, non-`'nan'` string —
exactly the values the fill guard will never overwrite. -/
def solidV (v : Option String) : Prop :=
  ∀ s, v = some s → cellEmpty (some s) = false

lemma solidV_none : solidV none := fun s hs => by cases hs

lemma ite_solid {P : Prop} [Decidable P] {a b : String}
    (ha : cellEmpty (some a) = false) (hb : cellEmpty (some b) = false) :
    cellEmpty (some (if P then a else b)) = false := by
  by_cases h : P
  · rw [if_pos h]; exact ha
  · rw [if_neg h]; exact hb

lemma drive_mapping_solid_head (c0 : Char) (X : List Char)
    (h1 : isPySpace c0 = false) (h2 : lowChar c0 ≠ 'n')
    (h3 : (!(c0 == '-') && !(c0 == ' ')) = true) :
    cellEmpty (some (drive_mapping (String.mk (remHySp (c0 :: X))))) = false := by
  have hr : remHySp (c0 :: X) = c0 :: remHySp X := by
    unfold remHySp
    rw [List.filter_cons, if_pos h3]
  rw [hr]
  unfold drive_mapping
  repeat' refine ite_solid (by decide) ?_
  exact cellEmpty_false_head _ _ h1 h2

lemma drivePost_solid_head (c : Char) (t' : List Char)
    (h : lowChar c = '4' ∨ lowChar c = 'a' ∨ lowChar c = '2' ∨ lowChar c = 'r' ∨
      lowChar c = 'f') :
    cellEmpty (some (drivePost (c :: t'))) = false := by
  have hply : pyLower (c :: t') = lowChar c :: pyLower t' := rfl
  unfold drivePost
  rw [hply]
  rcases h with h | h | h | h | h <;> rw [h] <;>
    exact drive_mapping_solid_head _ _ (by decide) (by decide) (by decide)

set_option maxHeartbeats 1000000 in
lemma type_mapping_solid_head (c0 : Char) (X : List Char)
    (h1 : isPySpace c0 = false) (h2 : lowChar c0 ≠ 'n') (h3 : (!(c0 == '-')) = true) :
    cellEmpty (some (type_mapping (String.mk (remHy (c0 :: X))))) = false := by
  have hr : remHy (c0 :: X) = c0 :: remHy X := by
    unfold remHy
    rw [List.filter_cons, if_pos h3]
  rw [hr]
  unfold type_mapping
  repeat' refine ite_solid (by decide) ?_
  exact cellEmpty_false_head _ _ h1 h2

lemma typePost_solid_head (c : Char) (t' : List Char)
    (h : lowChar c = 's' ∨ lowChar c = 'c' ∨ lowChar c = 'h' ∨ lowChar c = 'w' ∨
      lowChar c = 'p' ∨ lowChar c = 't' ∨ lowChar c = 'v' ∨ lowChar c = 'm' ∨
      lowChar c = 'o' ∨ lowChar c = 'b') :
    cellEmpty (some (typePost (c :: t'))) = false := by
  have hply : pyLower (c :: t') = lowChar c :: pyLower t' := rfl
  unfold typePost
  rw [hply]
  rcases h with h | h | h | h | h | h | h | h | h | h <;> rw [h] <;>
    exact type_mapping_solid_head _ _ (by decide) (by decide) (by decide)

lemma extractYear_solid (ts : List Char) : solidV (extractYear ts) := by
  intro s hs
  unfold extractYear at hs
  cases hg : searchG true yearGrp RE.bnd none ts with
  | none => rw [hg] at hs; cases hs
  | some g =>
    rw [hg] at hs
    injection hs with hs
    subst hs
    obtain ⟨d, t, hdt, hPd⟩ := searchG_head headSat_yearGrp ts none g hg
    subst hdt
    have hd : d = '1' ∨ d = '2' := by
      unfold yearHead at hPd
      rcases Bool.or_eq_true_iff.mp hPd with h | h
      · exact Or.inl (eq_of_beq h)
      · exact Or.inr (eq_of_beq h)
    rcases hd with h | h <;> subst h <;> exact cellEmpty_false_head _ _ (by decide) (by decide)

lemma cyl_value_solid (g : List Char) :
    cellEmpty (some (String.mk g ++ " cylinders")) = false := by
  have hdata : (String.mk g ++ " cylinders").data = g ++ " cylinders".data := rfl
  refine cellEmpty_false_of _ ?_ ?_
  · rw [hdata]
    have hcmem : 'c' ∈ g ++ " cylinders".data := List.mem_append.mpr (Or.inr (by decide))
    exact pyStrip_ne_nil hcmem (by decide)
  · rw [hdata]
    intro heq
    have hlen : (pyLower (g ++ " cylinders".data)).length = ("nan".data).length :=
      congrArg List.length heq
    rw [pyLower, List.length_map, List.length_append] at hlen
    have h10 : (" cylinders".data).length = 10 := rfl
    have h3 : ("nan".data).length = 3 := rfl
    omega

lemma extractCyl_solid (ts : List Char) : solidV (extractCyl ts) := by
  intro s hs
  unfold extractCyl at hs
  cases h1 : searchG false digPlus cylPost1 none ts with
  | some g =>
    rw [h1] at hs
    injection hs with hs
    subst hs
    exact cyl_value_solid g
  | none =>
    rw [h1] at hs
    cases h2 : searchG true digPlus cylPost2 none ts with
    | some g =>
      rw [h2] at hs
      injection hs with hs
      subst hs
      exact cyl_value_solid g
    | none => rw [h2] at hs; cases hs

lemma extractDrive_solid (ts : List Char) : solidV (extractDrive ts) := by
  intro s hs
  unfold extractDrive at hs
  cases hg1 : searchG true driveG1 RE.bnd none ts with
  | some g =>
    rw [hg1] at hs
    injection hs with hs
    subst hs
    obtain ⟨d, t, hdt, hPd⟩ := searchG_head headSat_driveG1 ts none g hg1
    subst hdt
    refine drivePost_solid_head d t ?_
    unfold drive1Head at hPd
    rcases Bool.or_eq_true_iff.mp hPd with h | h
    · exact Or.inl (eq_of_beq h)
    · exact Or.inr (Or.inl (eq_of_beq h))
  | none =>
    rw [hg1] at hs
    cases hg2 : searchG true driveG2 RE.bnd none ts with
    | some g =>
      rw [hg2] at hs
      injection hs with hs
      subst hs
      obtain ⟨d, t, hdt, hPd⟩ := searchG_head headSat_driveG2 ts none g hg2
      subst hdt
      refine drivePost_solid_head d t ?_
      unfold drive2Head at hPd
      rcases Bool.or_eq_true_iff.mp hPd with h | h
      · exact Or.inr (Or.inr (Or.inl (eq_of_beq h)))
      · exact Or.inr (Or.inr (Or.inr (Or.inl (eq_of_beq h))))
    | none =>
      rw [hg2] at hs
      cases hg3 : searchG true driveG3 RE.bnd none ts with
      | some g =>
        rw [hg3] at hs
        injection hs with hs
        subst hs
        obtain ⟨d, t, hdt, hPd⟩ := searchG_head headSat_driveG3 ts none g hg3
        subst hdt
        refine drivePost_solid_head d t ?_
        unfold drive3Head at hPd
        exact Or.inr (Or.inr (Or.inr (Or.inr (eq_of_beq hPd))))
      | none => rw [hg3] at hs; cases hs

lemma extractType_solid (ts : List Char) : solidV (extractType ts) := by
  intro s hs
  unfold extractType at hs
  cases hg : searchG true typeGrp RE.bnd none ts with
  | none => rw [hg] at hs; cases hs
  | some g =>
    rw [hg] at hs
    injection hs with hs
    subst hs
    obtain ⟨d, t, hdt, hPd⟩ := searchG_head headSat_typeGrp ts none g hg
    subst hdt
    refine typePost_solid_head d t ?_
    unfold typeHead at hPd
    rcases hPd' : (((((((((lowChar d == 's' || lowChar d == 'c') || lowChar d == 'h') ||
        lowChar d == 'w') || lowChar d == 'p') || lowChar d == 't') || lowChar d == 'v') ||
        lowChar d == 'm') || lowChar d == 'o') || lowChar d == 'b') with _ | _
    · rw [hPd'] at hPd; cases hPd
    · simp only [Bool.or_eq_true, beq_iff_eq] at hPd
      tauto

lemma manufacturers_solid : ∀ m ∈ manufacturers, cellEmpty (some m) = false := by decide

lemma findMultiMfr_mem {tl : List Char} {m : String} (h : findMultiMfr tl = some m) :
    m ∈ manufacturers := by
  have h1 := List.mem_of_find?_eq_some h
  have h2 := (mem_sortLenDesc _).mp h1
  exact (List.mem_filter.mp h2).1

lemma findSingleMfr_mem : ∀ (ws : List (List Char)) {m : String},
    findSingleMfr ws = some m → m ∈ manufacturers := by
  intro ws
  induction ws with
  | nil => intro m h; cases h
  | cons w ws' ih =>
    intro m h
    unfold findSingleMfr at h
    split at h
    · injection h with h
      subst h
      exact List.mem_of_find?_eq_some (by assumption)
    · exact ih h

lemma parse_string_eq (t : String) (ht : ¬ t = "") :
    parse_string t =
      { year := extractYear (pyStrip t.data)
        cylinders := extractCyl (pyStrip t.data)
        drive := extractDrive (pyStrip t.data)
        type := extractType (pyStrip t.data)
        manufacturer :=
          match findMultiMfr (pyLower (pyStrip t.data)) with
          | some m => some m
          | none => findSingleMfr (splitWs (pyStrip t.data)) } := by
  unfold parse_string
  rw [if_neg ht]

lemma parse_string_solid (t : String) :
    solidV (parse_string t).manufacturer ∧ solidV (parse_string t).type ∧
    solidV (parse_string t).drive ∧ solidV (parse_string t).cylinders ∧
    solidV (parse_string t).year := by
  by_cases ht : t = ""
  · subst ht
    exact ⟨solidV_none, solidV_none, solidV_none, solidV_none, solidV_none⟩
  · rw [parse_string_eq t ht]
    refine ⟨?_, extractType_solid _, extractDrive_solid _, extractCyl_solid _,
      extractYear_solid _⟩
    intro s hs
    have hs' : (match findMultiMfr (pyLower (pyStrip t.data)) with
        | some m => some m
        | none => findSingleMfr (splitWs (pyStrip t.data))) = some s := hs
    split at hs'
    · injection hs' with h
      subst h
      exact manufacturers_solid _ (findMultiMfr_mem (by assumption))
    · exact manufacturers_solid _ (findSingleMfr_mem _ hs')

/-! ### C1/C6: the fill-only merge and its consequences -/

lemma fillField_keep {cur : Option String} (h : cellEmpty cur = false) (v : Option String) :
    fillField cur v = cur := by
  cases v with
  | none => rfl
  | some s => simp [fillField, h]

lemma cellEmpty_eq_false_of_ne {c : Option String} (h : ¬ cellEmpty c = true) :
    cellEmpty c = false := by
  cases hc : cellEmpty c
  · rfl
  · exact absurd hc h

/-- The two-pass fill of one field is idempotent, provided both extracted
values are solid (which `parse_string_solid` guarantees). -/
lemma fill2_idem (c v1 v2 : Option String) (h1 : solidV v1) (h2 : solidV v2) :
    fillField (fillField (fillField (fillField c v1) v2) v1) v2 =
      fillField (fillField c v1) v2 := by
  cases v1 with
  | none =>
    cases v2 with
    | none => rfl
    | some s2 =>
      have hs2 := h2 s2 rfl
      by_cases hc : cellEmpty c = true
      · simp [fillField, hc, hs2]
      · simp [fillField, cellEmpty_eq_false_of_ne hc]
  | some s1 =>
    have hs1 := h1 s1 rfl
    cases v2 with
    | none =>
      by_cases hc : cellEmpty c = true
      · simp [fillField, hc, hs1]
      · simp [fillField, cellEmpty_eq_false_of_ne hc]
    | some s2 =>
      have hs2 := h2 s2 rfl
      by_cases hc : cellEmpty c = true
      · simp [fillField, hc, hs1]
      · simp [fillField, cellEmpty_eq_false_of_ne hc]

/-- The extracted record of one optional source cell (NaN source text is
skipped, i.e. contributes nothing). -/
def parseOpt : Option String → Extracted
  | none => ⟨none, none, none, none, none⟩
  | some t => parse_string t

lemma parseOpt_solid (src : Option String) :
    solidV (parseOpt src).manufacturer ∧ solidV (parseOpt src).type ∧
    solidV (parseOpt src).drive ∧ solidV (parseOpt src).cylinders ∧
    solidV (parseOpt src).year := by
  cases src with
  | none => exact ⟨solidV_none, solidV_none, solidV_none, solidV_none, solidV_none⟩
  | some t => exact parse_string_solid t

lemma passSource_eq_fill (r : CarRow) (src : Option String) :
    passSource r src = fillRow r (parseOpt src) := by
  cases src with
  | none => rfl
  | some t => rfl

lemma extractRow_eq_fill (r : CarRow) :
    extractRow r = fillRow (fillRow r (parseOpt r.model)) (parseOpt r.description) := by
  unfold extractRow
  rw [passSource_eq_fill, passSource_eq_fill]

/-- Idempotence of the per-row extraction. -/
lemma extractRow_idem (r : CarRow) : extractRow (extractRow r) = extractRow r := by
  have h1 := extractRow_eq_fill r
  have hm : (extractRow r).model = r.model := by rw [h1]; rfl
  have hd : (extractRow r).description = r.description := by rw [h1]; rfl
  have h2 := extractRow_eq_fill (extractRow r)
  rw [hm, hd] at h2
  obtain ⟨sm1, st1, sd1, sc1, sy1⟩ := parseOpt_solid r.model
  obtain ⟨sm2, st2, sd2, sc2, sy2⟩ := parseOpt_solid r.description
  rw [h2, h1]
  refine CarRow.ext ?_ ?_ ?_ ?_ ?_ ?_ ?_
  · rfl
  · rfl
  · exact fill2_idem r.manufacturer _ _ sm1 sm2
  · exact fill2_idem r.type _ _ st1 st2
  · exact fill2_idem r.drive _ _ sd1 sd2
  · exact fill2_idem r.cylinders _ _ sc1 sc2
  · exact fill2_idem r.year _ _ sy1 sy2

/-- **C6** — FieldExtractor idempotence: applying `extract_car_data` twice
produces the same table as applying it once (a consequence of the
fill-only-if-empty merge and of the extracted values never being empty,
blank or the `'nan'` sentinel). -/
theorem c6_extract_car_data_idempotent (rows : List CarRow) :
    extract_car_data (extract_car_data rows) = extract_car_data rows := by
  unfold extract_car_data
  rw [List.map_map]
  exact List.map_congr_left (fun r _ => extractRow_idem r)

/-- A row whose `manufacturer` cell holds the non-empty, non-null literal
string `"nan"`. -/
def c1BadRow : CarRow :=
  { model := some "toyota corolla"
    description := none
    manufacturer := some "nan"
    type := none
    drive := none
    cylinders := none
    year := none }

/-- **C1, counterexample** — The literal claim fails: a `manufacturer` cell
holding the non-empty, non-null string `"nan"` is overwritten by
`extract_car_data` (the fill guard also treats the `'nan'` sentinel and
whitespace-only strings as empty). -/
theorem c1_counterexample :
    c1BadRow.manufacturer = some "nan" ∧
    ("nan" : String) ≠ "" ∧
    (extract_car_data [c1BadRow]).map CarRow.manufacturer = [some "toyota"] ∧
    (some "toyota" : Option String) ≠ some "nan" := by
  exact ⟨rfl, by decide, by decide, by decide⟩

/-- **C1, amended** — Fill-only invariant as the code implements it: for
every row and each of the five extracted fields, if the field holds a
non-null value whose stripped form is non-empty and which is not the string
`'nan'` case-insensitively (`cellEmpty` is false), it is unchanged by
`extract_car_data`. -/
theorem c1_fill_only_invariant (rows : List CarRow) (i : Nat) (r r' : CarRow)
    (hr : rows[i]? = some r) (hr' : (extract_car_data rows)[i]? = some r') :
    (cellEmpty r.manufacturer = false → r'.manufacturer = r.manufacturer) ∧
    (cellEmpty r.type = false → r'.type = r.type) ∧
    (cellEmpty r.drive = false → r'.drive = r.drive) ∧
    (cellEmpty r.cylinders = false → r'.cylinders = r.cylinders) ∧
    (cellEmpty r.year = false → r'.year = r.year) := by
  have hmap : (extract_car_data rows)[i]? = (rows[i]?).map extractRow := by
    unfold extract_car_data
    exact List.getElem?_map extractRow rows i
  rw [hr] at hmap
  rw [hmap] at hr'
  injection hr' with hr'
  subst hr'
  rw [extractRow_eq_fill]
  refine ⟨?_, ?_, ?_, ?_, ?_⟩ <;> intro h
  · show fillField (fillField r.manufacturer _) _ = r.manufacturer
    rw [fillField_keep h, fillField_keep h]
  · show fillField (fillField r.type _) _ = r.type
    rw [fillField_keep h, fillField_keep h]
  · show fillField (fillField r.drive _) _ = r.drive
    rw [fillField_keep h, fillField_keep h]
  · show fillField (fillField r.cylinders _) _ = r.cylinders
    rw [fillField_keep h, fillField_keep h]
  · show fillField (fillField r.year _) _ = r.year
    rw [fillField_keep h, fillField_keep h]

/-- A row whose `manufacturer` cell already holds a solid value. -/
def c1GoodRow : CarRow :=
  { model := some "honda civic"
    description := none
    manufacturer := some "toyota"
    type := none
    drive := none
    cylinders := none
    year := none }

/-- Witness for the amended C1: a solid `manufacturer` value (`"toyota"`)
survives extraction even though the model text mentions another recognized
manufacturer. -/
theorem c1_witness : (extractRow c1GoodRow).manufacturer = some "toyota" := by
  have h := c1_fill_only_invariant [c1GoodRow] 0 c1GoodRow (extractRow c1GoodRow) rfl rfl
  exact (h.1 (by decide)).trans rfl

end DealIQ
